import Mathlib

/-!
Shallow embedding of the ThreadSafeSmartPointers library
(ts::unique_ptr in ts_memory.h, ts::shared_ptr in impl/ts_shared_ptr.h,
ts::null_ptr_exception in ts_null_ptr_exception.h).

Raw pointers are modelled as `Option Nat`: `none` is the null pointer and
`some a` is a non-null address `a`.  Mutex instances are identified by
natural-number ids; a lock acquisition is recorded by its mutex id rather
than performed, so blocking behaviour itself is outside the model while the
*set* of requested locks, the lock mode chosen at each access, and all
state transitions of the handles are embedded faithfully.
-/

namespace TS

/-- Raw pointer model: `none` is `nullptr`, `some a` is address `a`. -/
abbrev Raw := Option Nat

/-- Configuration constant `ts::impl::config::s_enable_exceptions`
(ts_memory.h line 29): the repository ships with exceptions enabled. -/
def s_enable_exceptions : Bool := true

/-- The single user-visible error kind, `ts::null_ptr_exception`
(ts_null_ptr_exception.h). -/
inductive ts_error where
  | null_ptr_exception
deriving DecidableEq

/-- Body of `proxy_locker::operator->` (identical in ts_memory.h lines
166-190 and ts_shared_ptr.h lines 210-234): with exceptions enabled a null
stored pointer raises `null_ptr_exception`, otherwise the raw pointer is
handed out unchecked. -/
def proxy_locker_arrow (enable_exceptions : Bool) (m_ptr : Raw) :
    Except ts_error Raw :=
  if enable_exceptions = true ∧ m_ptr = none then
    Except.error ts_error.null_ptr_exception
  else
    Except.ok m_ptr

/-- Body of `proxy_locker_for_subscript::operator[]` (ts_memory.h lines
246-258; ts_shared_ptr.h lines 300-323, where the non-const overload
forwards to the const one): with exceptions enabled a null stored pointer
raises `null_ptr_exception`, otherwise the access yields a reference to
element `index` of the stored array pointer. -/
def proxy_locker_subscript (enable_exceptions : Bool) (m_ptr : Raw)
    (index : Nat) : Except ts_error (Raw × Nat) :=
  if enable_exceptions = true ∧ m_ptr = none then
    Except.error ts_error.null_ptr_exception
  else
    Except.ok (m_ptr, index)

/-! ### Lock-policy selector (impl namespace of ts_shared_ptr.h) -/

/-- A mutex type, abstracted to the one capability the selector inspects:
`is_shared_lockable` models the concept `ts::impl::is_shared_lockable<T>`
(ts_shared_ptr.h lines 43-49: the type exposes `lock_shared`,
`unlock_shared` and a `bool`-returning `try_lock_shared`). -/
structure MutexType where
  is_shared_lockable : Bool
deriving DecidableEq

/-- The two lock modes a guarded access can take. -/
inductive LockKind where
  | uniqueLock
  | sharedLock
deriving DecidableEq

/-- `ts::impl::t_read_lock` (ts_shared_ptr.h lines 56-59):
`std::shared_lock` when the mutex satisfies `is_shared_lockable`, otherwise
`std::unique_lock`. -/
def t_read_lock (m : MutexType) : LockKind :=
  if m.is_shared_lockable then LockKind.sharedLock else LockKind.uniqueLock

/-- `ts::impl::t_write_lock` (ts_shared_ptr.h lines 66-67): always
`std::unique_lock`. -/
def t_write_lock (_ : MutexType) : LockKind :=
  LockKind.uniqueLock

/-- The lock mode chosen for a guarded access of `ts::shared_ptr<T, M>`:
`t_proxy_locker_ret` / `t_proxy_locker_for_subscript_ret` (ts_shared_ptr.h
lines 241-246 and 330-336) pick the read-lock proxy when
`is_read_only = std::is_const_v<T>` holds and the write-lock proxy
otherwise. -/
def access_lock_kind (m : MutexType) (is_read_only : Bool) : LockKind :=
  if is_read_only then t_read_lock m else t_write_lock m

/-- Instrumented lock counters, mirroring the `dummy_shared_mutex` counting
mutex of the test suite. -/
structure LockCounts where
  shared_acq : Nat
  exclusive_acq : Nat
deriving DecidableEq

/-- One lock acquisition in mode `k` bumps the matching counter. -/
def acquire_one (k : LockKind) (c : LockCounts) : LockCounts :=
  match k with
  | LockKind.sharedLock => ⟨c.shared_acq + 1, c.exclusive_acq⟩
  | LockKind.uniqueLock => ⟨c.shared_acq, c.exclusive_acq + 1⟩

/-- `n` guarded accesses in mode `k`, starting from zeroed counters. -/
def acquire_repeated (k : LockKind) : Nat → LockCounts
  | 0 => ⟨0, 0⟩
  | n + 1 => acquire_one k (acquire_repeated k n)

/-! ### ts::unique_ptr (ts_memory.h) -/

/-- State of a `ts::unique_ptr<T, TMutex, TDeleter>` instance: its private
mutex `m_mtx` (ts_memory.h line 468, identified by id; it always exists)
and the owned raw pointer of its wrapped `std::unique_ptr` member
`m_value` (line 473). -/
structure unique_ptr_state where
  m_mtx : Nat
  m_value : Raw
deriving DecidableEq

/-- `ts::unique_ptr::get()` (ts_memory.h lines 310-313): the raw pointer,
no locking. -/
def unique_ptr_get (p : unique_ptr_state) : Raw :=
  p.m_value

/-- Guarded member access of `ts::unique_ptr`: `operator->` (ts_memory.h
lines 383-386) builds `proxy_locker(m_mtx, m_value.get())` and the user's
access then runs the proxy's `operator->`. -/
def unique_ptr_arrow (p : unique_ptr_state) : Except ts_error Raw :=
  proxy_locker_arrow s_enable_exceptions p.m_value

/-- Guarded indexed access of `ts::unique_ptr`: `operator*` (ts_memory.h
lines 400-403) builds `proxy_locker_for_subscript(m_mtx, m_value.get())`
and the user's access then runs the proxy's `operator[]`. -/
def unique_ptr_subscript (p : unique_ptr_state) (index : Nat) :
    Except ts_error (Raw × Nat) :=
  proxy_locker_subscript s_enable_exceptions p.m_value index

/-- A `ts::unique_ptr` instance together with the running count of deleter
invocations on payloads it has owned (the instrumented-payload view of the
test suite). -/
structure unique_ptr_world where
  ptr : unique_ptr_state
  deleter_calls : Nat
deriving DecidableEq

/-- `ts::unique_ptr::release()` (ts_memory.h lines 445-449): takes its own
lock, then `m_value.release()` hands the raw pointer to the caller and
leaves the wrapped pointer null; the deleter is not invoked. -/
def unique_ptr_release (w : unique_ptr_world) : Raw × unique_ptr_world :=
  (w.ptr.m_value, ⟨⟨w.ptr.m_mtx, none⟩, w.deleter_calls⟩)

/-- `ts::unique_ptr::reset(new_pointer = nullptr)` (ts_memory.h lines
457-462): takes its own lock, then `m_value.reset(new_pointer)` destroys
the previously owned object (one deleter invocation, exactly when one was
owned) and stores the new pointer. -/
def unique_ptr_reset (w : unique_ptr_world) (new_pointer : Raw) :
    unique_ptr_world :=
  ⟨⟨w.ptr.m_mtx, new_pointer⟩,
   w.deleter_calls + (match w.ptr.m_value with | some _ => 1 | none => 0)⟩

/-- A `ts::unique_ptr` instance at an address, for operations whose source
compares instance identity (`std::addressof`). -/
structure unique_ptr_ref where
  addr : Nat
  val : unique_ptr_state
deriving DecidableEq

/-- The mutex acquisitions requested by
`ts::unique_ptr::operator=(unique_ptr&&)` (ts_memory.h lines 361-366):
`std::scoped_lock lock { *this, other }` requests the destination's and
the source's mutex; the source contains no identity check, so the list is
built the same way even when `other` is `*this`. -/
def unique_ptr_move_assign_locks (dst src : unique_ptr_ref) : List Nat :=
  [dst.val.m_mtx, src.val.m_mtx]

/-- Result of `ts::unique_ptr::operator=(unique_ptr&&)` on two distinct
instances: `this->m_value = std::move(other.m_value)` transfers the
payload pointer; each side keeps its own private mutex. -/
def unique_ptr_move_assign (dst src : unique_ptr_ref) :
    unique_ptr_state × unique_ptr_state :=
  (⟨dst.val.m_mtx, src.val.m_value⟩, ⟨src.val.m_mtx, none⟩)

/-- `ts::unique_ptr::operator=(unique_ptr&&)` applied with `other`
aliasing `*this` (self-move).  The lock request list still names this
instance's mutex twice, and the member assignment
`m_value = std::move(m_value)` is `std::unique_ptr`'s
`reset(release())`, which leaves the stored pointer unchanged when source
and destination alias. -/
def unique_ptr_move_assign_self (r : unique_ptr_ref) :
    unique_ptr_state × List Nat :=
  (⟨r.val.m_mtx, r.val.m_value⟩, unique_ptr_move_assign_locks r r)

/-! ### ts::unique_ptr comparison operators (ts_memory.h lines 529-584) -/

/-- `std::less` over our raw-pointer model: the null pointer is the least
address, non-null addresses compare by their numeric value.  This is the
natural ordering of the common pointer type used by the comparators. -/
def raw_ptr_rank : Raw → Nat
  | none => 0
  | some a => a + 1

/-- The natural strict order on raw pointers (`std::less<t_common>`). -/
def raw_less (a b : Raw) : Bool :=
  raw_ptr_rank a < raw_ptr_rank b

/-- `ts::operator<(unique_ptr, unique_ptr)` (ts_memory.h lines 529-541):
identical operands short-circuit to `false` with no locking; otherwise a
`std::scoped_lock` acquires both operands' mutexes and `std::less` compares
the raw pointers.  The second component lists the acquired mutexes. -/
def unique_ptr_less (left right : unique_ptr_ref) : Bool × List Nat :=
  if left.addr = right.addr then
    (false, [])
  else
    (raw_less left.val.m_value right.val.m_value,
     [left.val.m_mtx, right.val.m_mtx])

/-- `ts::operator==(unique_ptr, unique_ptr)` (ts_memory.h lines 561-570):
identical operands short-circuit to `true` with no locking; otherwise a
`std::scoped_lock` acquires both operands' mutexes and the raw pointers
are compared for equality. -/
def unique_ptr_eq (left right : unique_ptr_ref) : Bool × List Nat :=
  if left.addr = right.addr then
    (true, [])
  else
    (decide (left.val.m_value = right.val.m_value),
     [left.val.m_mtx, right.val.m_mtx])

/-! ### try_lock family -/

/-- `ts::unique_ptr::try_lock()` (ts_memory.h lines 297-300):
`return m_mtx.try_lock();` — the underlying mutex's answer is returned.
`none` would model an indeterminate result; this function always returns
a determinate flag. -/
def unique_ptr_try_lock (underlying : Bool) : Option Bool :=
  some underlying

/-- `ts::shared_ptr::try_lock()` (ts_shared_ptr.h lines 612-615):
`return mutex_ref().try_lock();` — determinate flag. -/
def shared_ptr_try_lock (underlying : Bool) : Option Bool :=
  some underlying

/-- `ts::shared_ptr::try_lock_shared()` (ts_shared_ptr.h lines 644-647):
the body evaluates `mutex_ref().try_lock_shared();` but contains no return
statement although the function is declared `bool`, so the value the
caller receives is indeterminate (undefined behaviour); the underlying
mutex's answer is discarded.  Modelled as `none` whatever the underlying
result. -/
def shared_ptr_try_lock_shared (_underlying : Bool) : Option Bool :=
  none

/-! ### ts::shared_ptr (ts_shared_ptr.h) -/

/-- State of a `ts::shared_ptr<T, TMutex>` instance: `m_mtx` is its
`std::shared_ptr<t_mutex>` member (ts_shared_ptr.h line 665), modelled by
the id of the referenced mutex (`none` after the reference was moved out),
and `m_data` is the raw pointer held by its `std::shared_ptr<T>` member
`m_data` (line 670), with payloads identified by id. -/
structure shared_ptr_state where
  m_mtx : Option Nat
  m_data : Raw
deriving DecidableEq

/-- The state a moved-from `ts::shared_ptr` is left in: both
`std::shared_ptr` members are moved out, hence null. -/
def dead_handle : shared_ptr_state :=
  ⟨none, none⟩

/-- `ts::shared_ptr::get()` (ts_shared_ptr.h lines 495-498): the raw
pointer, no locking. -/
def shared_ptr_get (h : shared_ptr_state) : Raw :=
  h.m_data

/-- Guarded member access of `ts::shared_ptr`: `operator->` (ts_shared_ptr.h
lines 560-563) locks `mutex_ref() = *(m_mtx.get())` — undefined (`none`)
when the mutex reference was moved out — and runs the proxy's
`operator->` on `m_data.get()`. -/
def shared_ptr_arrow (h : shared_ptr_state) :
    Option (Except ts_error Raw) :=
  match h.m_mtx with
  | none => none
  | some _ => some (proxy_locker_arrow s_enable_exceptions h.m_data)

/-- Guarded indexed access of `ts::shared_ptr`: `operator*` (ts_shared_ptr.h
lines 575-578) followed by the proxy's `operator[]`; undefined (`none`)
when the mutex reference was moved out. -/
def shared_ptr_subscript (h : shared_ptr_state) (index : Nat) :
    Option (Except ts_error (Raw × Nat)) :=
  match h.m_mtx with
  | none => none
  | some _ => some (proxy_locker_subscript s_enable_exceptions h.m_data index)

/-- `ts::shared_ptr` copy constructor (ts_shared_ptr.h lines 404-411):
locks `*(other.m_mtx.get())` — undefined (`none`) when the source is
moved-from — then copies both references; source and new handle now share
mutex and payload. -/
def shared_ptr_copy_ctor (other : shared_ptr_state) :
    Option shared_ptr_state :=
  match other.m_mtx with
  | none => none
  | some m => some ⟨some m, other.m_data⟩

/-- `ts::shared_ptr` move constructor (ts_shared_ptr.h lines 364-371):
locks `*(other.m_mtx.get())` — undefined (`none`) when the source is
moved-from — then moves both references out of the source.  Returns the
new handle and the state the source is left in. -/
def shared_ptr_move_ctor (other : shared_ptr_state) :
    Option (shared_ptr_state × shared_ptr_state) :=
  match other.m_mtx with
  | none => none
  | some m => some (⟨some m, other.m_data⟩, dead_handle)

/-- `ts::shared_ptr::reset()` (ts_shared_ptr.h lines 514-528): allocates a
brand-new mutex `fresh_mtx` and locks it; when the handle's current mutex
reference is null it is replaced directly, otherwise the old mutex is
locked too and then replaced; in both branches `m_data.reset()` drops the
payload reference.  Either way the handle ends Empty with the fresh
private mutex. -/
def shared_ptr_reset_zero (_p : shared_ptr_state) (fresh_mtx : Nat) :
    shared_ptr_state :=
  ⟨some fresh_mtx, none⟩

/-- `ts::shared_ptr::reset(args...)` (ts_shared_ptr.h lines 537-545):
allocates a brand-new mutex `fresh_mtx`, then
`std::scoped_lock lock { *(tmp_ref_to_mtx.get()), *(new_mutex.get()) }`
dereferences the handle's current mutex reference with no null check —
undefined behaviour (`none`) on a moved-from handle — then replaces the
mutex reference and resets `m_data` to the new payload. -/
def shared_ptr_reset_arg (p : shared_ptr_state) (fresh_mtx : Nat)
    (new_data : Raw) : Option shared_ptr_state :=
  match p.m_mtx with
  | none => none
  | some _ => some ⟨some fresh_mtx, new_data⟩

/-- A `ts::shared_ptr` instance at an address, for operations whose source
compares instance identity (`this == std::addressof(other)`). -/
structure shared_ptr_ref where
  addr : Nat
  val : shared_ptr_state
deriving DecidableEq

/-- `ts::shared_ptr::operator=(shared_ptr&&)` (ts_shared_ptr.h lines
446-458): when `this == std::addressof(other)` the function returns
immediately (no lock acquisition, no state change); otherwise a
`std::scoped_lock` acquires both current mutexes and both references are
moved out of the source.  Result: destination state, source state, and
the list of acquired mutexes. -/
def shared_ptr_move_assign (dst src : shared_ptr_ref) :
    (shared_ptr_state × shared_ptr_state) × List Nat :=
  if dst.addr = src.addr then
    ((dst.val, src.val), [])
  else
    match dst.val.m_mtx, src.val.m_mtx with
    | some a, some b => ((⟨some b, src.val.m_data⟩, dead_handle), [a, b])
    | _, _ => ((dst.val, src.val), [])

/-- `ts::shared_ptr::operator=(const shared_ptr&)` (ts_shared_ptr.h lines
472-484): when `this == std::addressof(other)` the function returns
immediately; otherwise a `std::scoped_lock` acquires both current mutexes
and both references are copied from the source. -/
def shared_ptr_copy_assign (dst src : shared_ptr_ref) :
    (shared_ptr_state × shared_ptr_state) × List Nat :=
  if dst.addr = src.addr then
    ((dst.val, src.val), [])
  else
    match dst.val.m_mtx, src.val.m_mtx with
    | some a, some b => ((⟨some b, src.val.m_data⟩, src.val), [a, b])
    | _, _ => ((dst.val, src.val), [])

/-- Modelled from the spec: the shared-owner comparison operators are
exercised by the test suite (`shared_ptr_api_testing.compare_operator`,
`self_compare`) but their definitions are not among the given sources.
Per spec section 4.4 they mirror the single-owner comparators: a view of
a valid shared-owner operand for comparison — its address, the id of its
guarding mutex, and its raw payload pointer. -/
structure shared_cmp_ref where
  addr : Nat
  mtx : Nat
  data : Raw
deriving DecidableEq

/-- Modelled from the spec: shared-owner `operator<` — identical operands
return the fixed self-comparison result `false` with no locking; distinct
operands' mutexes are both acquired and the raw addresses compared with
the natural ordering of the common pointer type. -/
def shared_ptr_less (left right : shared_cmp_ref) : Bool × List Nat :=
  if left.addr = right.addr then
    (false, [])
  else
    (raw_less left.data right.data, [left.mtx, right.mtx])

/-- Modelled from the spec: shared-owner `operator==` — identical operands
return the fixed self-comparison result `true` with no locking; distinct
operands' mutexes are both acquired and the raw addresses compared for
equality. -/
def shared_ptr_eq (left right : shared_cmp_ref) : Bool × List Nat :=
  if left.addr = right.addr then
    (true, [])
  else
    (decide (left.data = right.data), [left.mtx, right.mtx])

/-! ### Multi-handle heap model for the shared-owner pointer

A `store` tracks every live `ts::shared_ptr` handle, the supply of fresh
mutex and payload ids, and the ids of payloads whose deleter has run.
A payload's reference count is the number of handles whose `m_data` holds
its id — exactly the `std::shared_ptr` use count, since every handle owns
one `std::shared_ptr<T>`.  The deleter fires at the transition that drops
the last such reference.  Destroyed handles are kept in the list as inert
`dead_handle` entries so that indices stay stable. -/

structure store where
  handles : List shared_ptr_state
  next_mtx : Nat
  next_data : Nat
  deleted : List Nat
deriving DecidableEq

/-- Index into the handle list; out-of-range reads give `dead_handle`. -/
def nth : List shared_ptr_state → Nat → shared_ptr_state
  | [], _ => dead_handle
  | h :: _, 0 => h
  | _ :: t, i + 1 => nth t i

/-- Replace the handle at an index (no effect out of range). -/
def set_nth : List shared_ptr_state → Nat → shared_ptr_state →
    List shared_ptr_state
  | [], _, _ => []
  | _ :: t, 0, a => a :: t
  | h :: t, i + 1, a => h :: set_nth t i a

/-- Reference count of payload `k`: how many handles hold it. -/
def data_count : List shared_ptr_state → Nat → Nat
  | [], _ => 0
  | h :: t, k => (if h.m_data = some k then 1 else 0) + data_count t k

/-- The handle at index `i` of the store. -/
def h_get (s : store) (i : Nat) : shared_ptr_state :=
  nth s.handles i

/-- The deleter effect of handle `i` dropping its payload reference: when
it owns payload `k` and is the last owner (`std::shared_ptr` use count 1),
the deleter runs and `k` is recorded; otherwise nothing happens. -/
def fire_if_last (s : store) (i : Nat) : store :=
  match (h_get s i).m_data with
  | none => s
  | some k =>
      if data_count s.handles k = 1 then
        { s with deleted := k :: s.deleted }
      else
        s

/-- The handle-level operations of `ts::shared_ptr` as store events:
construction from a new payload, default construction, copy/move
construction from handle `j`, copy/move assignment of handle `j` into
handle `i`, the two reset overloads on handle `i`, and destruction of
handle `i`. -/
inductive sp_op where
  | new_obj
  | new_empty
  | copy_from (j : Nat)
  | move_from (j : Nat)
  | copy_assign (i j : Nat)
  | move_assign (i j : Nat)
  | reset_zero (i : Nat)
  | reset_arg (i : Nat)
  | destruct (i : Nat)
deriving DecidableEq

/-- One step of the store.  Each branch follows the corresponding member
of `ts::shared_ptr`:

* `new_obj` — `shared_ptr(new T)`: default member init allocates a fresh
  mutex (`std::make_shared<t_mutex>()`, line 665) and `m_data` adopts a
  fresh payload.
* `new_empty` — default/null construction: fresh mutex, no payload.
* `copy_from` / `move_from` — the copy/move constructors (undefined on a
  moved-from source, modelled as a stuck no-op).
* `copy_assign` / `move_assign` — the assignment operators: identity check
  first (`i = j` is `this == std::addressof(other)`), then both mutexes
  must be dereferenceable; the destination's old payload reference is
  dropped (deleter if last) before adopting the source's references.
* `reset_zero` — `reset()`: drops the payload reference (deleter if last)
  and installs a brand-new mutex; defined even on moved-from handles.
* `reset_arg` — `reset(new T)`: undefined on moved-from handles (null
  mutex dereference); otherwise drops the old payload (deleter if last)
  and adopts a fresh mutex and a fresh payload.
* `destruct` — the destructor: drops the payload reference (deleter if
  last); the slot becomes an inert `dead_handle`. -/
def sp_step (s : store) : sp_op → store
  | sp_op.new_obj =>
      { s with
        handles := ⟨some s.next_mtx, some s.next_data⟩ :: s.handles,
        next_mtx := s.next_mtx + 1,
        next_data := s.next_data + 1 }
  | sp_op.new_empty =>
      { s with
        handles := ⟨some s.next_mtx, none⟩ :: s.handles,
        next_mtx := s.next_mtx + 1 }
  | sp_op.copy_from j =>
      match shared_ptr_copy_ctor (h_get s j) with
      | none => s
      | some h => { s with handles := h :: s.handles }
  | sp_op.move_from j =>
      match shared_ptr_move_ctor (h_get s j) with
      | none => s
      | some (h, src) =>
          { s with handles := h :: set_nth s.handles j src }
  | sp_op.copy_assign i j =>
      if i = j then s
      else
        match (h_get s i).m_mtx, (h_get s j).m_mtx with
        | some _, some _ =>
            let s1 := fire_if_last s i
            { s1 with handles := set_nth s1.handles i (h_get s j) }
        | _, _ => s
  | sp_op.move_assign i j =>
      if i = j then s
      else
        match (h_get s i).m_mtx, (h_get s j).m_mtx with
        | some _, some _ =>
            let s1 := fire_if_last s i
            { s1 with
              handles :=
                set_nth (set_nth s1.handles i (h_get s j)) j dead_handle }
        | _, _ => s
  | sp_op.reset_zero i =>
      if i < s.handles.length then
        let s1 := fire_if_last s i
        { s1 with
          handles :=
            set_nth s1.handles i (shared_ptr_reset_zero (h_get s i) s.next_mtx),
          next_mtx := s.next_mtx + 1 }
      else s
  | sp_op.reset_arg i =>
      match shared_ptr_reset_arg (h_get s i) s.next_mtx (some s.next_data) with
      | none => s
      | some h =>
          let s1 := fire_if_last s i
          { s1 with
            handles := set_nth s1.handles i h,
            next_mtx := s.next_mtx + 1,
            next_data := s.next_data + 1 }
  | sp_op.destruct i =>
      if i < s.handles.length then
        let s1 := fire_if_last s i
        { s1 with handles := set_nth s1.handles i dead_handle }
      else s

/-- The empty initial store: no handles, no ids used, no deleter calls. -/
def sp_init : store :=
  ⟨[], 0, 0, []⟩

/-- Run a sequence of handle operations from the empty store. -/
def sp_run (ops : List sp_op) : store :=
  ops.foldl sp_step sp_init

/-- Number of payload constructions so far: payload ids are allocated
only at construction, one per payload. -/
def payload_constructions (s : store) : Nat :=
  s.next_data

/-- Number of payload destructions (deleter invocations) so far. -/
def payload_destructions (s : store) : Nat :=
  s.deleted.length

/-- Bounded check that an optional id is below the fresh-id supply. -/
def opt_lt (o : Option Nat) (n : Nat) : Bool :=
  match o with
  | none => true
  | some k => decide (k < n)

/-- Every referenced mutex id was allocated before the current supply. -/
def mtx_bound (s : store) : Prop :=
  ∀ h ∈ s.handles, opt_lt h.m_mtx s.next_mtx = true

/-- Every referenced payload id was allocated before the current supply. -/
def data_bound (s : store) : Prop :=
  ∀ h ∈ s.handles, opt_lt h.m_data s.next_data = true

/-- The deleter ledger is sound: no payload is destroyed twice, every
destroyed payload was allocated, and no destroyed payload is still
referenced by any handle. -/
def deleted_ok (s : store) : Prop :=
  s.deleted.Nodup ∧ ∀ k ∈ s.deleted, k < s.next_data ∧ data_count s.handles k = 0

/-- Every allocated payload is either destroyed or still referenced. -/
def sp_complete (s : store) : Prop :=
  ∀ k < s.next_data, k ∈ s.deleted ∨ 0 < data_count s.handles k

/-- The store invariant maintained by every handle operation. -/
def sp_inv (s : store) : Prop :=
  mtx_bound s ∧ data_bound s ∧ deleted_ok s ∧ sp_complete s

/-! ### List helper lemmas -/

theorem nth_overflow (l : List shared_ptr_state) :
    ∀ i, l.length ≤ i → nth l i = dead_handle := by
  induction l with
  | nil => intro i _; cases i <;> rfl
  | cons x t ih =>
      intro i hi
      cases i with
      | zero => simp [List.length_cons] at hi
      | succ n => exact ih n (by simp [List.length_cons] at hi; omega)

theorem length_set_nth (l : List shared_ptr_state) :
    ∀ (i : Nat) (a : shared_ptr_state), (set_nth l i a).length = l.length := by
  induction l with
  | nil => intro i a; rfl
  | cons x t ih =>
      intro i a
      cases i with
      | zero => rfl
      | succ n => simp [set_nth, List.length_cons, ih]

theorem nth_set_nth_eq (l : List shared_ptr_state) :
    ∀ (i : Nat) (a : shared_ptr_state), i < l.length →
      nth (set_nth l i a) i = a := by
  induction l with
  | nil => intro i a hi; simp at hi
  | cons x t ih =>
      intro i a hi
      cases i with
      | zero => rfl
      | succ n => exact ih n a (by simp [List.length_cons] at hi; omega)

theorem nth_set_nth_ne (l : List shared_ptr_state) :
    ∀ (i j : Nat) (a : shared_ptr_state), i ≠ j →
      nth (set_nth l i a) j = nth l j := by
  induction l with
  | nil => intro i j a _; cases i <;> cases j <;> rfl
  | cons x t ih =>
      intro i j a hij
      cases i with
      | zero =>
          cases j with
          | zero => exact absurd rfl hij
          | succ n => rfl
      | succ m =>
          cases j with
          | zero => rfl
          | succ n => exact ih m n a (fun e => hij (by omega))

theorem nth_mem (l : List shared_ptr_state) :
    ∀ i, i < l.length → nth l i ∈ l := by
  induction l with
  | nil => intro i hi; simp at hi
  | cons x t ih =>
      intro i hi
      cases i with
      | zero => exact List.mem_cons_self x t
      | succ n =>
          exact List.mem_cons_of_mem x (ih n (by simp [List.length_cons] at hi; omega))

theorem data_count_pos_of_mem (l : List shared_ptr_state) (x : shared_ptr_state)
    (k : Nat) (hx : x ∈ l) (hk : x.m_data = some k) : 0 < data_count l k := by
  induction l with
  | nil => simp at hx
  | cons y t ih =>
      rcases List.mem_cons.mp hx with h | h
      · subst h
        simp [data_count, hk]
      · have := ih h
        simp [data_count]
        omega

theorem data_count_eq_zero (l : List shared_ptr_state) (k : Nat) :
    data_count l k = 0 ↔ ∀ x ∈ l, x.m_data ≠ some k := by
  induction l with
  | nil => simp [data_count]
  | cons y t ih =>
      by_cases hy : y.m_data = some k
      · simp [data_count, hy, ih]
      · simp [data_count, hy, ih]

theorem data_count_set_nth (l : List shared_ptr_state) :
    ∀ (i : Nat) (a : shared_ptr_state) (k : Nat), i < l.length →
      data_count (set_nth l i a) k
          + (if (nth l i).m_data = some k then 1 else 0)
        = data_count l k + (if a.m_data = some k then 1 else 0) := by
  induction l with
  | nil => intro i a k hi; simp at hi
  | cons x t ih =>
      intro i a k hi
      cases i with
      | zero =>
          simp only [set_nth, nth, data_count]
          omega
      | succ n =>
          have hn : n < t.length := by simp [List.length_cons] at hi; omega
          have := ih n a k hn
          simp only [set_nth, nth, data_count]
          omega

theorem two_le_data_count (l : List shared_ptr_state) :
    ∀ (i j k : Nat), i ≠ j → i < l.length → j < l.length →
      (nth l i).m_data = some k → (nth l j).m_data = some k →
      2 ≤ data_count l k := by
  induction l with
  | nil => intro i j k _ hi _ _ _; simp at hi
  | cons x t ih =>
      intro i j k hij hi hj h1 h2
      cases i with
      | zero =>
          cases j with
          | zero => exact absurd rfl hij
          | succ n =>
              have hx : x.m_data = some k := h1
              have hn : n < t.length := by simp [List.length_cons] at hj; omega
              have hpos : 0 < data_count t k :=
                data_count_pos_of_mem t (nth t n) k (nth_mem t n hn) h2
              simp [data_count, hx]
              omega
      | succ m =>
          cases j with
          | zero =>
              have hx : x.m_data = some k := h2
              have hm : m < t.length := by simp [List.length_cons] at hi; omega
              have hpos : 0 < data_count t k :=
                data_count_pos_of_mem t (nth t m) k (nth_mem t m hm) h1
              simp [data_count, hx]
              omega
          | succ n =>
              have hm : m < t.length := by simp [List.length_cons] at hi; omega
              have hn : n < t.length := by simp [List.length_cons] at hj; omega
              have := ih m n k (fun e => hij (by omega)) hm hn h1 h2
              simp [data_count]
              omega

theorem mem_set_nth (l : List shared_ptr_state) :
    ∀ (i : Nat) (a x : shared_ptr_state), x ∈ set_nth l i a → x ∈ l ∨ x = a := by
  induction l with
  | nil => intro i a x hx; simp [set_nth] at hx
  | cons y t ih =>
      intro i a x hx
      cases i with
      | zero =>
          rcases List.mem_cons.mp hx with h | h
          · exact Or.inr h
          · exact Or.inl (List.mem_cons_of_mem y h)
      | succ n =>
          rcases List.mem_cons.mp hx with h | h
          · exact Or.inl (h ▸ List.mem_cons_self y t)
          · rcases ih n a x h with h' | h'
            · exact Or.inl (List.mem_cons_of_mem y h')
            · exact Or.inr h'

theorem in_range_of_mtx_some (s : store) (i m : Nat)
    (h : (h_get s i).m_mtx = some m) : i < s.handles.length := by
  by_contra hc
  rw [h_get, nth_overflow s.handles i (Nat.le_of_not_lt hc)] at h
  simp [dead_handle] at h

theorem in_range_of_data_some (s : store) (i k : Nat)
    (h : (h_get s i).m_data = some k) : i < s.handles.length := by
  by_contra hc
  rw [h_get, nth_overflow s.handles i (Nat.le_of_not_lt hc)] at h
  simp [dead_handle] at h

theorem fire_components (s : store) (i : Nat) :
    (fire_if_last s i).handles = s.handles ∧
    (fire_if_last s i).next_mtx = s.next_mtx ∧
    (fire_if_last s i).next_data = s.next_data := by
  unfold fire_if_last
  cases (h_get s i).m_data with
  | none => exact ⟨rfl, rfl, rfl⟩
  | some k =>
      by_cases hc : data_count s.handles k = 1 <;> simp [hc]

/-! ### Claim theorems -/

/-- C1: for either pointer kind, with the exceptions-enabled configuration
active, a guarded member access (operator->) or guarded index access
(operator[] via operator*) on an instance owning no object raises
`null_ptr_exception`, and only then; construction, assignment, copy, move
and reset are all defined for empty instances and never raise it. -/
theorem C1_null_access_only_on_guarded_access :
    s_enable_exceptions = true ∧
    (∀ p : unique_ptr_state,
      unique_ptr_arrow p = Except.error ts_error.null_ptr_exception
        ↔ unique_ptr_get p = none) ∧
    (∀ (p : unique_ptr_state) (idx : Nat),
      unique_ptr_subscript p idx = Except.error ts_error.null_ptr_exception
        ↔ unique_ptr_get p = none) ∧
    (∀ (m : Nat) (d : Raw),
      shared_ptr_arrow ⟨some m, d⟩
          = some (Except.error ts_error.null_ptr_exception) ↔ d = none) ∧
    (∀ (m : Nat) (d : Raw) (idx : Nat),
      shared_ptr_subscript ⟨some m, d⟩ idx
          = some (Except.error ts_error.null_ptr_exception) ↔ d = none) ∧
    (∀ m : Nat, shared_ptr_copy_ctor ⟨some m, none⟩ = some ⟨some m, none⟩) ∧
    (∀ m : Nat,
      shared_ptr_move_ctor ⟨some m, none⟩ = some (⟨some m, none⟩, dead_handle)) ∧
    (∀ m f : Nat, shared_ptr_reset_zero ⟨some m, none⟩ f = ⟨some f, none⟩) ∧
    (∀ (m f : Nat) (d : Raw),
      shared_ptr_reset_arg ⟨some m, none⟩ f d = some ⟨some f, d⟩) ∧
    (∀ m1 m2 : Nat,
      shared_ptr_move_assign ⟨0, ⟨some m1, none⟩⟩ ⟨1, ⟨some m2, none⟩⟩
        = ((⟨some m2, none⟩, dead_handle), [m1, m2])) ∧
    (∀ m1 m2 : Nat,
      shared_ptr_copy_assign ⟨0, ⟨some m1, none⟩⟩ ⟨1, ⟨some m2, none⟩⟩
        = ((⟨some m2, none⟩, ⟨some m2, none⟩), [m1, m2])) ∧
    (∀ a1 a2 m1 m2 : Nat,
      unique_ptr_move_assign ⟨a1, ⟨m1, none⟩⟩ ⟨a2, ⟨m2, none⟩⟩
        = (⟨m1, none⟩, ⟨m2, none⟩)) ∧
    (∀ (m c : Nat) (p : Raw),
      unique_ptr_reset ⟨⟨m, none⟩, c⟩ p = ⟨⟨m, p⟩, c⟩) := by
  refine ⟨rfl, ?_, ?_, ?_, ?_, ?_, ?_, ?_, ?_, ?_, ?_, ?_, ?_⟩
  · intro p
    cases hp : p.m_value <;>
      simp [unique_ptr_arrow, unique_ptr_get, proxy_locker_arrow,
            s_enable_exceptions, hp]
  · intro p idx
    cases hp : p.m_value <;>
      simp [unique_ptr_subscript, unique_ptr_get, proxy_locker_subscript,
            s_enable_exceptions, hp]
  · intro m d
    cases d <;>
      simp [shared_ptr_arrow, proxy_locker_arrow, s_enable_exceptions]
  · intro m d idx
    cases d <;>
      simp [shared_ptr_subscript, proxy_locker_subscript, s_enable_exceptions]
  · intro m; rfl
  · intro m; rfl
  · intro m f; rfl
  · intro m f d; rfl
  · intro m1 m2; rfl
  · intro m1 m2; rfl
  · intro a1 a2 m1 m2; rfl
  · intro m c p; simp [unique_ptr_reset]

/-- C2: the reader lock mode is selected for guarded access exactly when
the mutex type is shared-lockable and the pointee is read-only; write
accesses (non-const pointee) always lock exclusively; and over a capable
mutex, N guarded reads through a read-only alias perform N reader-lock
acquisitions and zero exclusive ones, while N writes through the mutable
alias perform N exclusive acquisitions. -/
theorem C2_lock_policy_selector :
    (∀ (m : MutexType) (ro : Bool),
      access_lock_kind m ro = LockKind.sharedLock
        ↔ (m.is_shared_lockable = true ∧ ro = true)) ∧
    (∀ m : MutexType, access_lock_kind m false = LockKind.uniqueLock) ∧
    (∀ n : Nat, acquire_repeated (access_lock_kind ⟨true⟩ true) n = ⟨n, 0⟩) ∧
    (∀ n : Nat, acquire_repeated (access_lock_kind ⟨true⟩ false) n = ⟨0, n⟩) := by
  refine ⟨?_, ?_, ?_, ?_⟩
  · intro m ro
    cases m with
    | mk b =>
        cases b <;> cases ro <;>
          simp [access_lock_kind, t_read_lock, t_write_lock]
  · intro m
    cases m with
    | mk b => cases b <;> simp [access_lock_kind, t_write_lock]
  · intro n
    induction n with
    | zero => rfl
    | succ k ih =>
        simp [access_lock_kind, t_read_lock] at ih
        simp [acquire_repeated, access_lock_kind, t_read_lock, ih, acquire_one]
  · intro n
    induction n with
    | zero => rfl
    | succ k ih =>
        simp [access_lock_kind, t_write_lock] at ih
        simp [acquire_repeated, access_lock_kind, t_write_lock, ih, acquire_one]

/-- C5 counterexample: the claim asserts that for both pointer kinds a
self-move is detected by identity and never attempts to lock the same
mutex twice, but the single-owner move assignment performs no identity
check: a self-move of a `ts::unique_ptr` whose mutex has id 5 requests
the lock list [5, 5], acquiring the same mutex twice. -/
theorem C5_counterexample_unique_self_move :
    (unique_ptr_move_assign_self ⟨0, ⟨5, some 3⟩⟩).2 = [5, 5] ∧
    ¬ ((unique_ptr_move_assign_self ⟨0, ⟨5, some 3⟩⟩).2).Nodup := by
  exact ⟨rfl, by decide⟩

/-- C5 (amended): the shared-owner pointer detects self-assignment and
self-move by identity and performs a no-op with no lock acquisition; the
single-owner move assignment has no identity check, so a self-move
requests this instance's own mutex twice in one scoped acquisition
(deadlock / undefined behaviour), although the stored pointer value
itself is left unchanged. -/
theorem C5_self_operations :
    (∀ r : shared_ptr_ref, shared_ptr_move_assign r r = ((r.val, r.val), [])) ∧
    (∀ r : shared_ptr_ref, shared_ptr_copy_assign r r = ((r.val, r.val), [])) ∧
    (∀ u : unique_ptr_ref,
      (unique_ptr_move_assign_self u).1 = u.val ∧
      (unique_ptr_move_assign_self u).2 = [u.val.m_mtx, u.val.m_mtx]) := by
  refine ⟨?_, ?_, ?_⟩
  · intro r; simp [shared_ptr_move_assign]
  · intro r; simp [shared_ptr_copy_assign]
  · intro u
    exact ⟨rfl, rfl⟩

/-- C6 counterexample: the claim asserts that any reset overload restores
a moved-from shared-owner handle; after move-construction from a concrete
handle the source is left with both references null, and the
argument-taking reset overload on that source dereferences the null mutex
reference (undefined behaviour) instead of restoring it. -/
theorem C6_counterexample_reset_arg_on_moved_from :
    shared_ptr_move_ctor ⟨some 3, some 7⟩ = some (⟨some 3, some 7⟩, dead_handle) ∧
    shared_ptr_reset_arg dead_handle 1 (some 2) = none := by
  exact ⟨rfl, rfl⟩

/-- C6 (amended): after move-construction or move-assignment from a
shared-owner handle, the source's mutex and payload references are
transferred out, not copied, and the source is left Empty (get() null)
with both references null; the zero-argument reset() restores it to a
well-defined Empty state with a fresh private mutex, while the
argument-taking reset overload dereferences the moved-from instance's
null mutex reference (undefined behaviour) instead of restoring it. -/
theorem C6_move_transfers_and_reset_restores :
    (∀ (m : Nat) (d : Raw),
      shared_ptr_move_ctor ⟨some m, d⟩ = some (⟨some m, d⟩, dead_handle)) ∧
    (∀ (m1 m2 : Nat) (d1 d2 : Raw),
      shared_ptr_move_assign ⟨0, ⟨some m1, d1⟩⟩ ⟨1, ⟨some m2, d2⟩⟩
        = ((⟨some m2, d2⟩, dead_handle), [m1, m2])) ∧
    shared_ptr_get dead_handle = none ∧
    (∀ f : Nat, shared_ptr_reset_zero dead_handle f = ⟨some f, none⟩) ∧
    (∀ (f : Nat) (nd : Raw), shared_ptr_reset_arg dead_handle f nd = none) := by
  refine ⟨?_, ?_, rfl, ?_, ?_⟩
  · intro m d; rfl
  · intro m1 m2 d1 d2; rfl
  · intro f; rfl
  · intro f nd; rfl

/-- C7: `try_lock` on both pointer kinds returns the underlying mutex's
success flag, but `shared_ptr::try_lock_shared` falls off the end of its
`bool` body without a return statement, so its result is indeterminate
(`none`) no matter what the underlying mutex answered — contradicting its
own documentation and the claim. -/
theorem C7_try_lock_flag_results :
    (∀ b : Bool, unique_ptr_try_lock b = some b) ∧
    (∀ b : Bool, shared_ptr_try_lock b = some b) ∧
    shared_ptr_try_lock_shared true = none ∧
    shared_ptr_try_lock_shared false = none := by
  exact ⟨fun _ => rfl, fun _ => rfl, rfl, rfl⟩

/-- C8: equality and ordering between two owner handles acquire both
operands' mutexes and compare the raw pointers using the natural ordering
of the common pointer type; when the operands are the identical instance
the acquisition is skipped and a fixed self-comparison result is returned
(equal for ==, false for <).  The single-owner comparators are embedded
from ts_memory.h; the shared-owner comparators are modelled from the
spec. -/
theorem C8_comparator_locking (l r : unique_ptr_ref) (ls rs : shared_cmp_ref)
    (h : l.addr ≠ r.addr) (hs : ls.addr ≠ rs.addr) :
    unique_ptr_less l r
        = (raw_less l.val.m_value r.val.m_value, [l.val.m_mtx, r.val.m_mtx]) ∧
    unique_ptr_eq l r
        = (decide (l.val.m_value = r.val.m_value), [l.val.m_mtx, r.val.m_mtx]) ∧
    unique_ptr_less l l = (false, []) ∧
    unique_ptr_eq l l = (true, []) ∧
    shared_ptr_less ls rs = (raw_less ls.data rs.data, [ls.mtx, rs.mtx]) ∧
    shared_ptr_eq ls rs = (decide (ls.data = rs.data), [ls.mtx, rs.mtx]) ∧
    shared_ptr_less ls ls = (false, []) ∧
    shared_ptr_eq ls ls = (true, []) := by
  refine ⟨?_, ?_, ?_, ?_, ?_, ?_, ?_, ?_⟩ <;>
    simp [unique_ptr_less, unique_ptr_eq, shared_ptr_less, shared_ptr_eq, h, hs]

/-- Witness for C8 at concrete operands. -/
theorem C8_comparator_locking_witness :
    unique_ptr_less ⟨0, ⟨2, some 4⟩⟩ ⟨1, ⟨3, some 9⟩⟩ = (true, [2, 3]) :=
  ((C8_comparator_locking ⟨0, ⟨2, some 4⟩⟩ ⟨1, ⟨3, some 9⟩⟩
      ⟨0, 2, some 4⟩ ⟨1, 3, some 9⟩ (by decide) (by decide)).1).trans (by decide)

/-- C9: release() on a single-owner pointer in the Owning state returns
the previously managed raw pointer and moves the handle to Empty
(get() is null afterwards); the deleter is not invoked on the released
object. -/
theorem C9_release_owning :
    ∀ (m r c : Nat),
      unique_ptr_release ⟨⟨m, some r⟩, c⟩ = (some r, ⟨⟨m, none⟩, c⟩) ∧
      unique_ptr_get (unique_ptr_release ⟨⟨m, some r⟩, c⟩).2.ptr = none ∧
      (unique_ptr_release ⟨⟨m, some r⟩, c⟩).2.deleter_calls = c := by
  intro m r c
  exact ⟨rfl, rfl, rfl⟩

/-- C10: release() on a single-owner pointer that is already Empty is not
an error: it returns the null pointer, invokes no deleter, and leaves the
handle Empty. -/
theorem C10_release_empty :
    ∀ m c : Nat,
      unique_ptr_release ⟨⟨m, none⟩, c⟩ = (none, ⟨⟨m, none⟩, c⟩) ∧
      unique_ptr_get (unique_ptr_release ⟨⟨m, none⟩, c⟩).2.ptr = none ∧
      (unique_ptr_release ⟨⟨m, none⟩, c⟩).2.deleter_calls = c := by
  intro m c
  exact ⟨rfl, rfl, rfl⟩

/-! ### Invariant preservation for the store model -/

theorem opt_lt_mono (o : Option Nat) (n n' : Nat) (h : opt_lt o n = true)
    (hnn : n ≤ n') : opt_lt o n' = true := by
  cases o with
  | none => rfl
  | some k => simp [opt_lt] at h ⊢; omega

theorem fire_deleted_cases (s : store) (i : Nat) :
    ((∀ k0, (nth s.handles i).m_data = some k0 → data_count s.handles k0 ≠ 1) ∧
      (fire_if_last s i).deleted = s.deleted) ∨
    (∃ k0, (nth s.handles i).m_data = some k0 ∧ data_count s.handles k0 = 1 ∧
      (fire_if_last s i).deleted = k0 :: s.deleted) := by
  unfold fire_if_last h_get
  cases hod : (nth s.handles i).m_data with
  | none =>
      exact Or.inl ⟨fun k0 h => absurd h (by simp), rfl⟩
  | some k0 =>
      by_cases hc1 : data_count s.handles k0 = 1
      · exact Or.inr ⟨k0, rfl, hc1, by simp [hc1]⟩
      · refine Or.inl ⟨?_, by simp [hc1]⟩
        intro k0' h
        cases h
        exact hc1

/-- Core invariant-preservation lemma for the operations that drop handle
`i`'s payload reference and then rewrite the handle list: the new list
`hl` must relate to the old one by releasing slot `i`'s reference and
gaining at most one reference `extra` (either a reference some other
handle already holds, or the freshly constructed payload when `dd = 1`). -/
theorem sp_inv_release_core (s : store) (i : Nat) (hl : List shared_ptr_state)
    (nm dd : Nat) (extra : Raw)
    (hi : i < s.handles.length)
    (hnm : s.next_mtx ≤ nm)
    (hmem : ∀ h ∈ hl, h ∈ s.handles ∨ h = dead_handle ∨
        (opt_lt h.m_mtx nm = true ∧
          (h.m_data = none ∨ (dd = 1 ∧ h.m_data = some s.next_data))))
    (hcount : ∀ k, data_count hl k
          + (if (nth s.handles i).m_data = some k then 1 else 0)
        = data_count s.handles k + (if extra = some k then 1 else 0))
    (hextra : extra = none ∨
        (∃ j, j ≠ i ∧ j < s.handles.length ∧ (nth s.handles j).m_data = extra) ∨
        (dd = 1 ∧ extra = some s.next_data))
    (hdd_extra : dd = 1 → extra = some s.next_data)
    (hddle : dd ≤ 1)
    (hs : sp_inv s) :
    sp_inv ⟨hl, nm, s.next_data + dd, (fire_if_last s i).deleted⟩ := by
  obtain ⟨hm, hd, ⟨hnd, hdel⟩, hc⟩ := hs
  have hmemi := nth_mem s.handles i hi
  have hdatl : ∀ k, (nth s.handles i).m_data = some k → k < s.next_data := by
    intro k hk
    have hb := hd _ hmemi
    rw [hk] at hb
    simpa [opt_lt] using hb
  have hzero : ∀ k, k < s.next_data → data_count s.handles k = 0 →
      data_count hl k = 0 := by
    intro k hklt h0
    have hci := hcount k
    have hoi : ¬ (nth s.handles i).m_data = some k := by
      intro he
      have := data_count_pos_of_mem s.handles _ k hmemi he
      omega
    have hex : ¬ extra = some k := by
      intro he
      rcases hextra with hn | ⟨j, _, hj, hjd⟩ | ⟨_, hnd2⟩
      · rw [hn] at he; cases he
      · rw [he] at hjd
        have := data_count_pos_of_mem s.handles _ k (nth_mem s.handles j hj) hjd
        omega
      · rw [hnd2] at he
        cases he
        omega
    simp [hoi, hex] at hci
    omega
  refine ⟨?_, ?_, ?_, ?_⟩
  · -- mtx_bound
    show ∀ h ∈ hl, opt_lt h.m_mtx nm = true
    intro h hh
    rcases hmem h hh with hold | hdead | ⟨hb, _⟩
    · exact opt_lt_mono _ _ _ (hm h hold) hnm
    · rw [hdead]; rfl
    · exact hb
  · -- data_bound
    show ∀ h ∈ hl, opt_lt h.m_data (s.next_data + dd) = true
    intro h hh
    rcases hmem h hh with hold | hdead | ⟨_, hcases⟩
    · exact opt_lt_mono _ _ _ (hd h hold) (by omega)
    · rw [hdead]; rfl
    · rcases hcases with hnone | ⟨hdd1, hsome⟩
      · rw [hnone]; rfl
      · rw [hsome]; simp [opt_lt]; omega
  · -- deleted_ok
    show (fire_if_last s i).deleted.Nodup ∧
      ∀ k ∈ (fire_if_last s i).deleted,
        k < s.next_data + dd ∧ data_count hl k = 0
    rcases fire_deleted_cases s i with ⟨hno, hdeq⟩ | ⟨k0, hod, hc1, hdeq⟩
    · rw [hdeq]
      refine ⟨hnd, ?_⟩
      intro k hk
      refine ⟨by have := (hdel k hk).1; omega, ?_⟩
      exact hzero k (hdel k hk).1 (hdel k hk).2
    · rw [hdeq]
      have hk0lt : k0 < s.next_data := hdatl k0 hod
      have hk0notin : k0 ∉ s.deleted := by
        intro hin
        have := (hdel k0 hin).2
        omega
      refine ⟨List.nodup_cons.mpr ⟨hk0notin, hnd⟩, ?_⟩
      intro k hk
      rcases List.mem_cons.mp hk with hkk0 | hkold
      · subst hkk0
        refine ⟨by omega, ?_⟩
        have hci := hcount k
        have hgain : ¬ extra = some k := by
          intro he
          rcases hextra with hn | ⟨j, hji, hj, hjd⟩ | ⟨_, hnd2⟩
          · rw [hn] at he; cases he
          · rw [he] at hjd
            have := two_le_data_count s.handles j i k hji hj hi hjd hod
            omega
          · rw [hnd2] at he
            cases he
            omega
        simp [hod, hgain] at hci
        omega
      · refine ⟨by have := (hdel k hkold).1; omega, ?_⟩
        exact hzero k (hdel k hkold).1 (hdel k hkold).2
  · -- sp_complete
    show ∀ k < s.next_data + dd,
      k ∈ (fire_if_last s i).deleted ∨ 0 < data_count hl k
    intro k hk
    rcases fire_deleted_cases s i with ⟨hno, hdeq⟩ | ⟨k0, hod, hc1, hdeq⟩
    · rw [hdeq]
      by_cases hklt : k < s.next_data
      · rcases hc k hklt with hin | hpos
        · exact Or.inl hin
        · refine Or.inr ?_
          have hci := hcount k
          by_cases hoi : (nth s.handles i).m_data = some k
          · have hge2 : 2 ≤ data_count s.handles k := by
              have hne1 := hno k hoi
              have := data_count_pos_of_mem s.handles _ k hmemi hoi
              omega
            simp [hoi] at hci
            omega
          · simp [hoi] at hci
            omega
      · have hdd1 : dd = 1 := by omega
        have hknd : k = s.next_data := by omega
        subst hknd
        have hex := hdd_extra hdd1
        have hci := hcount s.next_data
        have hoi : ¬ (nth s.handles i).m_data = some s.next_data := by
          intro he
          have := hdatl s.next_data he
          omega
        refine Or.inr ?_
        rw [hex] at hci
        simp [hoi] at hci
        omega
    · rw [hdeq]
      by_cases hklt : k < s.next_data
      · by_cases hkk0 : k = k0
        · exact Or.inl (hkk0 ▸ List.mem_cons_self k0 s.deleted)
        · rcases hc k hklt with hin | hpos
          · exact Or.inl (List.mem_cons_of_mem k0 hin)
          · refine Or.inr ?_
            have hci := hcount k
            have hoi : ¬ (nth s.handles i).m_data = some k := by
              rw [hod]
              intro he
              cases he
              exact hkk0 rfl
            simp [hoi] at hci
            omega
      · have hdd1 : dd = 1 := by omega
        have hknd : k = s.next_data := by omega
        subst hknd
        have hex := hdd_extra hdd1
        have hci := hcount s.next_data
        have hoi : ¬ (nth s.handles i).m_data = some s.next_data := by
          intro he
          have := hdatl s.next_data he
          omega
        refine Or.inr ?_
        rw [hex] at hci
        simp [hoi] at hci
        omega

/-- Core invariant-preservation lemma for the operations that do not drop
any payload reference (construction, copy/move construction): the handle
list may gain at most one reference `extra`. -/
theorem sp_inv_grow_core (s : store) (hl : List shared_ptr_state)
    (nm dd : Nat) (extra : Raw)
    (hnm : s.next_mtx ≤ nm)
    (hmem : ∀ h ∈ hl, h ∈ s.handles ∨ h = dead_handle ∨
        (opt_lt h.m_mtx nm = true ∧
          (h.m_data = none ∨ (dd = 1 ∧ h.m_data = some s.next_data))))
    (hcount : ∀ k, data_count hl k
        = data_count s.handles k + (if extra = some k then 1 else 0))
    (hextra : extra = none ∨
        (∃ j, j < s.handles.length ∧ (nth s.handles j).m_data = extra) ∨
        (dd = 1 ∧ extra = some s.next_data))
    (hdd_extra : dd = 1 → extra = some s.next_data)
    (hddle : dd ≤ 1)
    (hs : sp_inv s) :
    sp_inv ⟨hl, nm, s.next_data + dd, s.deleted⟩ := by
  obtain ⟨hm, hd, ⟨hnd, hdel⟩, hc⟩ := hs
  refine ⟨?_, ?_, ?_, ?_⟩
  · show ∀ h ∈ hl, opt_lt h.m_mtx nm = true
    intro h hh
    rcases hmem h hh with hold | hdead | ⟨hb, _⟩
    · exact opt_lt_mono _ _ _ (hm h hold) hnm
    · rw [hdead]; rfl
    · exact hb
  · show ∀ h ∈ hl, opt_lt h.m_data (s.next_data + dd) = true
    intro h hh
    rcases hmem h hh with hold | hdead | ⟨_, hcases⟩
    · exact opt_lt_mono _ _ _ (hd h hold) (by omega)
    · rw [hdead]; rfl
    · rcases hcases with hnone | ⟨hdd1, hsome⟩
      · rw [hnone]; rfl
      · rw [hsome]; simp [opt_lt]; omega
  · show s.deleted.Nodup ∧
      ∀ k ∈ s.deleted, k < s.next_data + dd ∧ data_count hl k = 0
    refine ⟨hnd, ?_⟩
    intro k hk
    refine ⟨by have := (hdel k hk).1; omega, ?_⟩
    have hci := hcount k
    have h0 := (hdel k hk).2
    have hex : ¬ extra = some k := by
      intro he
      rcases hextra with hn | ⟨j, hj, hjd⟩ | ⟨_, hnd2⟩
      · rw [hn] at he; cases he
      · rw [he] at hjd
        have := data_count_pos_of_mem s.handles _ k (nth_mem s.handles j hj) hjd
        omega
      · rw [hnd2] at he
        cases he
        have := (hdel _ hk).1
        omega
    simp [hex] at hci
    omega
  · show ∀ k < s.next_data + dd, k ∈ s.deleted ∨ 0 < data_count hl k
    intro k hk
    by_cases hklt : k < s.next_data
    · rcases hc k hklt with hin | hpos
      · exact Or.inl hin
      · refine Or.inr ?_
        have hci := hcount k
        omega
    · have hdd1 : dd = 1 := by omega
      have hknd : k = s.next_data := by omega
      subst hknd
      have hex := hdd_extra hdd1
      have hci := hcount s.next_data
      rw [hex] at hci
      simp at hci
      refine Or.inr ?_
      omega

theorem data_count_cons (h : shared_ptr_state) (t : List shared_ptr_state)
    (k : Nat) :
    data_count (h :: t) k = (if h.m_data = some k then 1 else 0) + data_count t k :=
  rfl

theorem nth_eq_of_mtx_and_data (s : store) (j m : Nat)
    (hmj : (h_get s j).m_mtx = some m) :
    nth s.handles j = ⟨some m, (h_get s j).m_data⟩ := by
  unfold h_get at hmj ⊢
  cases hnj : nth s.handles j with
  | mk a b =>
      rw [hnj] at hmj
      simp at hmj
      simp [hmj]

theorem sp_inv_step (s : store) (o : sp_op) (hs : sp_inv s) :
    sp_inv (sp_step s o) := by
  cases o with
  | new_obj =>
      show sp_inv ⟨⟨some s.next_mtx, some s.next_data⟩ :: s.handles,
        s.next_mtx + 1, s.next_data + 1, s.deleted⟩
      refine sp_inv_grow_core s _ (s.next_mtx + 1) 1 (some s.next_data)
        (by omega) ?_ ?_ (Or.inr (Or.inr ⟨rfl, rfl⟩)) (fun _ => rfl)
        (by omega) hs
      · intro h hh
        rcases List.mem_cons.mp hh with hh | hh
        · refine Or.inr (Or.inr ?_)
          rw [hh]
          exact ⟨by simp [opt_lt], Or.inr ⟨rfl, rfl⟩⟩
        · exact Or.inl hh
      · intro k
        rw [data_count_cons]
        simp only []
        omega
  | new_empty =>
      show sp_inv ⟨⟨some s.next_mtx, none⟩ :: s.handles,
        s.next_mtx + 1, s.next_data + 0, s.deleted⟩
      refine sp_inv_grow_core s _ (s.next_mtx + 1) 0 none
        (by omega) ?_ ?_ (Or.inl rfl)
        (fun h => absurd h (by decide)) (by omega) hs
      · intro h hh
        rcases List.mem_cons.mp hh with hh | hh
        · refine Or.inr (Or.inr ?_)
          rw [hh]
          exact ⟨by simp [opt_lt], Or.inl rfl⟩
        · exact Or.inl hh
      · intro k
        rw [data_count_cons]
        simp
  | copy_from j =>
      cases hmj : (h_get s j).m_mtx with
      | none =>
          have hstep : sp_step s (sp_op.copy_from j) = s := by
            simp [sp_step, shared_ptr_copy_ctor, hmj]
          rw [hstep]; exact hs
      | some m =>
          have hj : j < s.handles.length := in_range_of_mtx_some s j m hmj
          have hstep : sp_step s (sp_op.copy_from j)
              = ⟨⟨some m, (h_get s j).m_data⟩ :: s.handles,
                 s.next_mtx, s.next_data + 0, s.deleted⟩ := by
            simp [sp_step, shared_ptr_copy_ctor, hmj]
          rw [hstep]
          refine sp_inv_grow_core s _ s.next_mtx 0 ((h_get s j).m_data)
            (le_refl _) ?_ ?_ (Or.inr (Or.inl ⟨j, hj, rfl⟩))
            (fun h => absurd h (by decide)) (by omega) hs
          · intro h hh
            rcases List.mem_cons.mp hh with hh | hh
            · refine Or.inl ?_
              rw [hh, ← nth_eq_of_mtx_and_data s j m hmj]
              exact nth_mem s.handles j hj
            · exact Or.inl hh
          · intro k
            rw [data_count_cons]
            simp only [h_get]
            omega
  | move_from j =>
      cases hmj : (h_get s j).m_mtx with
      | none =>
          have hstep : sp_step s (sp_op.move_from j) = s := by
            simp [sp_step, shared_ptr_move_ctor, hmj]
          rw [hstep]; exact hs
      | some m =>
          have hj : j < s.handles.length := in_range_of_mtx_some s j m hmj
          have hstep : sp_step s (sp_op.move_from j)
              = ⟨⟨some m, (h_get s j).m_data⟩ :: set_nth s.handles j dead_handle,
                 s.next_mtx, s.next_data + 0, s.deleted⟩ := by
            simp [sp_step, shared_ptr_move_ctor, hmj]
          rw [hstep]
          refine sp_inv_grow_core s _ s.next_mtx 0 none
            (le_refl _) ?_ ?_ (Or.inl rfl)
            (fun h => absurd h (by decide)) (by omega) hs
          · intro h hh
            rcases List.mem_cons.mp hh with hh | hh
            · refine Or.inl ?_
              rw [hh, ← nth_eq_of_mtx_and_data s j m hmj]
              exact nth_mem s.handles j hj
            · rcases mem_set_nth s.handles j dead_handle h hh with hh | hh
              · exact Or.inl hh
              · exact Or.inr (Or.inl hh)
          · intro k
            have e1 := data_count_set_nth s.handles j dead_handle k hj
            rw [data_count_cons]
            simp only [h_get, dead_handle] at e1 ⊢
            simp at e1 ⊢
            omega
  | copy_assign i j =>
      by_cases hij : i = j
      · have hstep : sp_step s (sp_op.copy_assign i j) = s := by
          simp [sp_step, hij]
        rw [hstep]; exact hs
      · cases hmi : (h_get s i).m_mtx with
        | none =>
            have hstep : sp_step s (sp_op.copy_assign i j) = s := by
              simp [sp_step, hij, hmi]
            rw [hstep]; exact hs
        | some mi =>
            cases hmj : (h_get s j).m_mtx with
            | none =>
                have hstep : sp_step s (sp_op.copy_assign i j) = s := by
                  simp [sp_step, hij, hmi, hmj]
                rw [hstep]; exact hs
            | some mj =>
                have hi : i < s.handles.length := in_range_of_mtx_some s i mi hmi
                have hj : j < s.handles.length := in_range_of_mtx_some s j mj hmj
                have hfc := fire_components s i
                have hstep : sp_step s (sp_op.copy_assign i j)
                    = ⟨set_nth s.handles i (h_get s j), s.next_mtx,
                       s.next_data + 0, (fire_if_last s i).deleted⟩ := by
                  simp [sp_step, hij, hmi, hmj, hfc.1, hfc.2.1, hfc.2.2]
                rw [hstep]
                refine sp_inv_release_core s i _ s.next_mtx 0 ((h_get s j).m_data)
                  hi (le_refl _) ?_ ?_
                  (Or.inr (Or.inl ⟨j, fun e => hij e.symm, hj, rfl⟩))
                  (fun h => absurd h (by decide)) (by omega) hs
                · intro h hh
                  rcases mem_set_nth s.handles i (h_get s j) h hh with hh | hh
                  · exact Or.inl hh
                  · refine Or.inl ?_
                    rw [hh]
                    exact nth_mem s.handles j hj
                · intro k
                  exact data_count_set_nth s.handles i (h_get s j) k hi
  | move_assign i j =>
      by_cases hij : i = j
      · have hstep : sp_step s (sp_op.move_assign i j) = s := by
          simp [sp_step, hij]
        rw [hstep]; exact hs
      · cases hmi : (h_get s i).m_mtx with
        | none =>
            have hstep : sp_step s (sp_op.move_assign i j) = s := by
              simp [sp_step, hij, hmi]
            rw [hstep]; exact hs
        | some mi =>
            cases hmj : (h_get s j).m_mtx with
            | none =>
                have hstep : sp_step s (sp_op.move_assign i j) = s := by
                  simp [sp_step, hij, hmi, hmj]
                rw [hstep]; exact hs
            | some mj =>
                have hi : i < s.handles.length := in_range_of_mtx_some s i mi hmi
                have hj : j < s.handles.length := in_range_of_mtx_some s j mj hmj
                have hfc := fire_components s i
                have hstep : sp_step s (sp_op.move_assign i j)
                    = ⟨set_nth (set_nth s.handles i (h_get s j)) j dead_handle,
                       s.next_mtx, s.next_data + 0, (fire_if_last s i).deleted⟩ := by
                  simp [sp_step, hij, hmi, hmj, hfc.1, hfc.2.1, hfc.2.2]
                rw [hstep]
                refine sp_inv_release_core s i _ s.next_mtx 0 none
                  hi (le_refl _) ?_ ?_ (Or.inl rfl)
                  (fun h => absurd h (by decide)) (by omega) hs
                · intro h hh
                  rcases mem_set_nth _ j dead_handle h hh with hh | hh
                  · rcases mem_set_nth s.handles i (h_get s j) h hh with hh | hh
                    · exact Or.inl hh
                    · refine Or.inl ?_
                      rw [hh]
                      exact nth_mem s.handles j hj
                  · exact Or.inr (Or.inl hh)
                · intro k
                  have e1 := data_count_set_nth s.handles i (h_get s j) k hi
                  have hlen1 : (set_nth s.handles i (h_get s j)).length
                      = s.handles.length := length_set_nth s.handles i (h_get s j)
                  have e2 := data_count_set_nth (set_nth s.handles i (h_get s j))
                    j dead_handle k (by rw [hlen1]; exact hj)
                  rw [nth_set_nth_ne s.handles i j (h_get s j) hij] at e2
                  simp only [h_get, dead_handle] at e1 e2 ⊢
                  simp at e2 ⊢
                  omega
  | reset_zero i =>
      by_cases hi : i < s.handles.length
      · have hfc := fire_components s i
        have hstep : sp_step s (sp_op.reset_zero i)
            = ⟨set_nth s.handles i ⟨some s.next_mtx, none⟩,
               s.next_mtx + 1, s.next_data + 0, (fire_if_last s i).deleted⟩ := by
          simp [sp_step, hi, shared_ptr_reset_zero, hfc.1, hfc.2.1, hfc.2.2]
        rw [hstep]
        refine sp_inv_release_core s i _ (s.next_mtx + 1) 0 none
          hi (by omega) ?_ ?_ (Or.inl rfl)
          (fun h => absurd h (by decide)) (by omega) hs
        · intro h hh
          rcases mem_set_nth s.handles i _ h hh with hh | hh
          · exact Or.inl hh
          · refine Or.inr (Or.inr ?_)
            rw [hh]
            exact ⟨by simp [opt_lt], Or.inl rfl⟩
        · intro k
          have e1 := data_count_set_nth s.handles i ⟨some s.next_mtx, none⟩ k hi
          simp only [h_get] at e1 ⊢
          simp at e1 ⊢
          omega
      · have hstep : sp_step s (sp_op.reset_zero i) = s := by
          simp [sp_step, hi]
        rw [hstep]; exact hs
  | reset_arg i =>
      cases hmi : (h_get s i).m_mtx with
      | none =>
          have hstep : sp_step s (sp_op.reset_arg i) = s := by
            simp [sp_step, shared_ptr_reset_arg, hmi]
          rw [hstep]; exact hs
      | some mi =>
          have hi : i < s.handles.length := in_range_of_mtx_some s i mi hmi
          have hfc := fire_components s i
          have hstep : sp_step s (sp_op.reset_arg i)
              = ⟨set_nth s.handles i ⟨some s.next_mtx, some s.next_data⟩,
                 s.next_mtx + 1, s.next_data + 1, (fire_if_last s i).deleted⟩ := by
            simp [sp_step, shared_ptr_reset_arg, hmi, hfc.1, hfc.2.1, hfc.2.2]
          rw [hstep]
          refine sp_inv_release_core s i _ (s.next_mtx + 1) 1 (some s.next_data)
            hi (by omega) ?_ ?_ (Or.inr (Or.inr ⟨rfl, rfl⟩))
            (fun _ => rfl) (by omega) hs
          · intro h hh
            rcases mem_set_nth s.handles i _ h hh with hh | hh
            · exact Or.inl hh
            · refine Or.inr (Or.inr ?_)
              rw [hh]
              exact ⟨by simp [opt_lt], Or.inr ⟨rfl, rfl⟩⟩
          · intro k
            have e1 := data_count_set_nth s.handles i
              ⟨some s.next_mtx, some s.next_data⟩ k hi
            simp only [h_get] at e1 ⊢
            simp at e1 ⊢
            omega
  | destruct i =>
      by_cases hi : i < s.handles.length
      · have hfc := fire_components s i
        have hstep : sp_step s (sp_op.destruct i)
            = ⟨set_nth s.handles i dead_handle, s.next_mtx,
               s.next_data + 0, (fire_if_last s i).deleted⟩ := by
          simp [sp_step, hi, hfc.1, hfc.2.1, hfc.2.2]
        rw [hstep]
        refine sp_inv_release_core s i _ s.next_mtx 0 none
          hi (le_refl _) ?_ ?_ (Or.inl rfl)
          (fun h => absurd h (by decide)) (by omega) hs
        · intro h hh
          rcases mem_set_nth s.handles i dead_handle h hh with hh | hh
          · exact Or.inl hh
          · exact Or.inr (Or.inl hh)
        · intro k
          have e1 := data_count_set_nth s.handles i dead_handle k hi
          simp only [h_get, dead_handle] at e1 ⊢
          simp at e1 ⊢
          omega
      · have hstep : sp_step s (sp_op.destruct i) = s := by
          simp [sp_step, hi]
        rw [hstep]; exact hs

theorem sp_inv_init : sp_inv sp_init := by
  refine ⟨?_, ?_, ⟨?_, ?_⟩, ?_⟩ <;>
    simp [sp_init, mtx_bound, data_bound, sp_complete, data_count]

theorem sp_inv_foldl (ops : List sp_op) :
    ∀ s, sp_inv s → sp_inv (ops.foldl sp_step s) := by
  induction ops with
  | nil => intro s hs; exact hs
  | cons o t ih => intro s hs; exact ih (sp_step s o) (sp_inv_step s o hs)

theorem sp_inv_run (ops : List sp_op) : sp_inv (sp_run ops) :=
  sp_inv_foldl ops sp_init sp_inv_init

/-- C3: for two shared-owner handles a (at index i) and b (at index j)
holding the same payload k — as produced by copying a common ancestor —
reset() on a replaces only a's mutex reference (with the freshly
allocated mutex, distinct from b's) and a's payload reference: b's state
and b.get() are unchanged, no deleter runs, and subsequent guarded
access through b still succeeds and reaches payload k. -/
theorem C3_reset_isolates_siblings (s : store) (i j k m : Nat)
    (hij : i ≠ j)
    (hidat : (h_get s i).m_data = some k)
    (hjdat : (h_get s j).m_data = some k)
    (hjm : (h_get s j).m_mtx = some m)
    (hmlt : m < s.next_mtx) :
    h_get (sp_step s (sp_op.reset_zero i)) j = h_get s j ∧
    shared_ptr_get (h_get (sp_step s (sp_op.reset_zero i)) j) = some k ∧
    h_get (sp_step s (sp_op.reset_zero i)) i = ⟨some s.next_mtx, none⟩ ∧
    (h_get (sp_step s (sp_op.reset_zero i)) i).m_mtx ≠ (h_get s j).m_mtx ∧
    (sp_step s (sp_op.reset_zero i)).deleted = s.deleted ∧
    shared_ptr_arrow (h_get (sp_step s (sp_op.reset_zero i)) j)
      = some (Except.ok (some k)) := by
  have hi : i < s.handles.length := in_range_of_data_some s i k hidat
  have hj : j < s.handles.length := in_range_of_data_some s j k hjdat
  have hcnt2 : 2 ≤ data_count s.handles k :=
    two_le_data_count s.handles i j k hij hi hj hidat hjdat
  have hidat' : (nth s.handles i).m_data = some k := hidat
  have hjdat' : (nth s.handles j).m_data = some k := hjdat
  have hjm' : (nth s.handles j).m_mtx = some m := hjm
  have hfire : fire_if_last s i = s := by
    unfold fire_if_last h_get
    rw [hidat']
    have hne1 : data_count s.handles k ≠ 1 := by omega
    simp [hne1]
  have hstep : sp_step s (sp_op.reset_zero i)
      = ⟨set_nth s.handles i ⟨some s.next_mtx, none⟩,
         s.next_mtx + 1, s.next_data, s.deleted⟩ := by
    simp [sp_step, hi, shared_ptr_reset_zero, hfire]
  rw [hstep]
  have h1 : nth (set_nth s.handles i ⟨some s.next_mtx, none⟩) j
      = nth s.handles j :=
    nth_set_nth_ne s.handles i j ⟨some s.next_mtx, none⟩ hij
  have h2 : nth (set_nth s.handles i ⟨some s.next_mtx, none⟩) i
      = ⟨some s.next_mtx, none⟩ :=
    nth_set_nth_eq s.handles i ⟨some s.next_mtx, none⟩ hi
  refine ⟨h1, ?_, h2, ?_, rfl, ?_⟩
  · show shared_ptr_get (nth (set_nth s.handles i ⟨some s.next_mtx, none⟩) j)
      = some k
    rw [h1]
    exact hjdat'
  · show (nth (set_nth s.handles i ⟨some s.next_mtx, none⟩) i).m_mtx
      ≠ (h_get s j).m_mtx
    rw [h2, hjm]
    simp
    omega
  · show shared_ptr_arrow (nth (set_nth s.handles i ⟨some s.next_mtx, none⟩) j)
      = some (Except.ok (some k))
    rw [h1]
    simp [shared_ptr_arrow, hjm', proxy_locker_arrow, s_enable_exceptions, hjdat']

/-- Witness for C3 on a concrete two-handle store. -/
theorem C3_reset_isolates_siblings_witness :
    h_get (sp_step ⟨[⟨some 0, some 0⟩, ⟨some 0, some 0⟩], 1, 1, []⟩
        (sp_op.reset_zero 0)) 1 = ⟨some 0, some 0⟩ :=
  ((C3_reset_isolates_siblings ⟨[⟨some 0, some 0⟩, ⟨some 0, some 0⟩], 1, 1, []⟩
      0 1 0 0 (by decide) (by decide) (by decide) (by decide) (by decide)).1).trans
    (by decide)

/-- C4: along every sequence of constructions, copies, moves, resets and
destructions of shared-owner handles, the deleter runs exactly once per
payload, at the transition that releases the last owning reference; once
no handle owns anything any more, the number of payload constructions
equals the number of payload destructions (and no payload was destroyed
twice). -/
theorem C4_balanced_lifecycle (ops : List sp_op)
    (hdone : ∀ h ∈ (sp_run ops).handles, h.m_data = none) :
    (sp_run ops).deleted.Nodup ∧
    payload_constructions (sp_run ops) = payload_destructions (sp_run ops) := by
  obtain ⟨hm, hd, ⟨hnd, hdel⟩, hc⟩ := sp_inv_run ops
  refine ⟨hnd, ?_⟩
  have hcount0 : ∀ k, data_count (sp_run ops).handles k = 0 := by
    intro k
    refine (data_count_eq_zero _ k).mpr ?_
    intro x hx
    rw [hdone x hx]
    simp
  have hmemiff : ∀ k, k ∈ (sp_run ops).deleted ↔ k < (sp_run ops).next_data := by
    intro k
    constructor
    · intro hk; exact (hdel k hk).1
    · intro hk
      rcases hc k hk with h | h
      · exact h
      · rw [hcount0 k] at h; omega
  have hfin : (sp_run ops).deleted.toFinset
      = Finset.range (sp_run ops).next_data := by
    ext k
    simp [List.mem_toFinset, Finset.mem_range, hmemiff k]
  have hlen : (sp_run ops).deleted.toFinset.card = (sp_run ops).deleted.length :=
    List.toFinset_card_of_nodup hnd
  have hcard := congrArg Finset.card hfin
  rw [hlen, Finset.card_range] at hcard
  show (sp_run ops).next_data = (sp_run ops).deleted.length
  omega

/-- Witness for C4 on a concrete operation sequence: construct, copy,
reset one copy, destroy both handles. -/
theorem C4_balanced_lifecycle_witness :
    (∀ h ∈ (sp_run [sp_op.new_obj, sp_op.copy_from 0, sp_op.reset_zero 1,
        sp_op.destruct 0, sp_op.destruct 1]).handles, h.m_data = none) ∧
    payload_constructions (sp_run [sp_op.new_obj, sp_op.copy_from 0,
        sp_op.reset_zero 1, sp_op.destruct 0, sp_op.destruct 1])
      = payload_destructions (sp_run [sp_op.new_obj, sp_op.copy_from 0,
        sp_op.reset_zero 1, sp_op.destruct 0, sp_op.destruct 1]) :=
  ⟨by decide, (C4_balanced_lifecycle [sp_op.new_obj, sp_op.copy_from 0,
      sp_op.reset_zero 1, sp_op.destruct 0, sp_op.destruct 1] (by decide)).2⟩

end TS
